import Mathlib

/-!
# Verification of the NERDA training orchestrator (`src/NERDA/train.py`)

Shallow embedding of `train_model` and `enforce_reproducibility`.

* Loss values produced by the (external) step functions `train_` /
  `validate_` are Python floats; we model them by `Flt`: NaN, the two
  infinities, and exact finite values (rationals).  The Python `<` on
  floats becomes `Flt.lt` (every comparison involving NaN is `False`).
* The network is an opaque mutable parameter collection of type `Θ`.
  `train_` mutates it in place; we model the per-epoch effect of
  `train_` by an oracle `trainUpd : ℕ → Θ → Θ`, and the scalar losses
  returned by `train_` / `validate_` by oracles `trainLoss validLoss :
  ℕ → Flt` (the run is sequential and deterministic, so indexing the
  oracles by the epoch number is fully general).
* PyTorch's `network.state_dict()` returns a dictionary holding
  references to the live parameter tensors (it does not copy the
  values), and the optimizer updates those tensors in place.  Hence
  `best_parameters = network.state_dict()` (train.py line 128) stores
  an alias of the single live parameter cell, and
  `network.load_state_dict(best_parameters)` (line 132) reads back the
  cell's *current* contents.  The embedding therefore keeps one live
  cell `params` and records only whether `best_parameters` has been
  bound (`bestAssigned`); finalization either reads the live cell
  through the alias (a no-op) or fails with Python's unbound-local
  error when `best_parameters` was never assigned.
-/

/-- A Python float as far as `train.py` observes one: NaN, ±∞, or an
exact finite value. -/
inductive Flt where
  | nan : Flt
  | neginf : Flt
  | inf : Flt
  | fin : ℚ → Flt
deriving DecidableEq, Repr

/-- Python's `<` on floats: any comparison with NaN is `False`;
`-inf < x` for every `x` other than NaN and `-inf` itself; `inf` is
below nothing; finite values compare exactly. -/
def Flt.lt : Flt → Flt → Bool
  | .nan, _ => false
  | _, .nan => false
  | .neginf, .neginf => false
  | .neginf, _ => true
  | _, .neginf => false
  | .inf, _ => false
  | .fin _, .inf => true
  | .fin a, .fin b => decide (a < b)

/-- True iff `x` is a non-finite float (NaN or an infinity). -/
def Flt.nonFinite : Flt → Bool
  | .nan => true
  | .neginf => true
  | .inf => true
  | .fin _ => false


/-- State of the epoch loop of `train_model` (train.py lines 114-129).

`params` is the network's live parameter cell, `losses` the list built
by `losses.append(train_loss)`, `bestLoss` the `best_loss` variable,
`bestAssigned` whether the local `best_parameters` has been bound (it
aliases the live cell, so no value needs to be stored), and
`epochsRun` the epoch indices executed so far, in order. -/
structure TrainState (Θ : Type) where
  params : Θ
  losses : List Flt
  bestLoss : Flt
  bestAssigned : Bool
  epochsRun : List ℕ
deriving Repr

/-- Initial state: `losses = []`, `best_loss = np.inf` (train.py lines 114-115),
`best_parameters` unbound, network parameters as supplied by the
caller. -/
def initState {Θ : Type} (θ0 : Θ) : TrainState Θ :=
  { params := θ0, losses := [], bestLoss := Flt.inf,
    bestAssigned := false, epochsRun := [] }

/-- One iteration of the `for epoch in range(epochs)` body
(train.py lines 117-129): run `train_` (mutating the parameters and
returning `train_loss`), append `train_loss` to `losses`, run
`validate_`, and if `valid_loss < best_loss` bind `best_parameters`
to `network.state_dict()` (an alias of the live cell) and update
`best_loss`. -/
def epochStep {Θ : Type} (trainUpd : ℕ → Θ → Θ) (trainLoss validLoss : ℕ → Flt)
    (s : TrainState Θ) (epoch : ℕ) : TrainState Θ :=
  let params' := trainUpd epoch s.params
  let losses' := s.losses ++ [trainLoss epoch]
  if Flt.lt (validLoss epoch) s.bestLoss then
    { params := params', losses := losses', bestLoss := validLoss epoch,
      bestAssigned := true, epochsRun := s.epochsRun ++ [epoch] }
  else
    { params := params', losses := losses', bestLoss := s.bestLoss,
      bestAssigned := s.bestAssigned, epochsRun := s.epochsRun ++ [epoch] }

/-- The epoch loop run for `epochs` iterations from the initial state. -/
def runLoop {Θ : Type} (trainUpd : ℕ → Θ → Θ) (trainLoss validLoss : ℕ → Flt)
    (θ0 : Θ) (epochs : ℕ) : TrainState Θ :=
  (List.range epochs).foldl (epochStep trainUpd trainLoss validLoss) (initState θ0)

/-- The one uncaught Python error the orchestrator itself can raise:
`NameError`/`UnboundLocalError` at `network.load_state_dict(best_parameters)`
when no epoch ever bound `best_parameters`. -/
inductive TrainError where
  | unboundBestParameters : TrainError
deriving DecidableEq, Repr

/-- Epoch loop plus finalization (train.py lines 114-134): after the
loop, `network.load_state_dict(best_parameters)` reads the live
parameter cell back through the alias stored in `best_parameters`
(leaving `params` unchanged) and the function returns
`(network, losses)`; if `best_parameters` was never assigned the line
raises an unbound-local error instead. -/
def trainModelCore {Θ : Type} (trainUpd : ℕ → Θ → Θ) (trainLoss validLoss : ℕ → Flt)
    (θ0 : Θ) (epochs : ℕ) : Except TrainError (Θ × List Flt) :=
  let s := runLoop trainUpd trainLoss validLoss θ0 epochs
  if s.bestAssigned then Except.ok (s.params, s.losses)
  else Except.error TrainError.unboundBestParameters

/-- Modelled from the spec: the spec requires the per-epoch capture to
be "a deep, independent copy, not an ownership-sharing reference to
the live network state".  This variant stores the parameter *values*
at capture time in `bestCopy`. -/
structure SpecTrainState (Θ : Type) where
  params : Θ
  bestLoss : Flt
  bestCopy : Option Θ
deriving Repr

/-- Modelled from the spec: one epoch with copy-on-capture snapshotting. -/
def specEpochStep {Θ : Type} (trainUpd : ℕ → Θ → Θ) (validLoss : ℕ → Flt)
    (s : SpecTrainState Θ) (epoch : ℕ) : SpecTrainState Θ :=
  let params' := trainUpd epoch s.params
  if Flt.lt (validLoss epoch) s.bestLoss then
    { params := params', bestLoss := validLoss epoch, bestCopy := some params' }
  else
    { params := params', bestLoss := s.bestLoss, bestCopy := s.bestCopy }

/-- Modelled from the spec: the deep snapshot held after the loop, i.e.
the parameter state the spec says the returned network must have. -/
def specBestParams {Θ : Type} (trainUpd : ℕ → Θ → Θ) (validLoss : ℕ → Flt)
    (θ0 : Θ) (epochs : ℕ) : Option Θ :=
  ((List.range epochs).foldl (specEpochStep trainUpd validLoss)
    { params := θ0, bestLoss := Flt.inf, bestCopy := none }).bestCopy

/-- The live parameter value after `k` epochs of in-place updates by
`train_`. -/
def paramsAfter {Θ : Type} (trainUpd : ℕ → Θ → Θ) (θ0 : Θ) (k : ℕ) : Θ :=
  (List.range k).foldl (fun θ e => trainUpd e θ) θ0

/-- Embedding of `num_train_steps = int(len(dr_train) / train_batch_size * epochs)`
(train.py line 107): the division is exact (float) division, the whole
product is then truncated.  All quantities are non-negative, so
truncation is the floor of the exact rational value. -/
def num_train_steps (n bs epochs : ℕ) : ℕ :=
  (⌊(n : ℚ) / (bs : ℚ) * (epochs : ℚ)⌋).toNat

/-- The formula the spec states for the total step count:
`floor(num_training_examples / batch_size) * epochs`. -/
def spec_num_train_steps (n bs epochs : ℕ) : ℕ := n / bs * epochs

/-- The `no_decay` denylist (train.py line 91). -/
def no_decay : List String := ["bias", "LayerNorm.bias", "LayerNorm.weight"]

/-- Whether `sub` occurs as a contiguous run inside `l`. -/
def listHasInfix (sub : List Char) : List Char → Bool
  | [] => sub.isEmpty
  | c :: rest => List.isPrefixOf sub (c :: rest) || listHasInfix sub rest

/-- Python's `nd in n` on strings: `nd` occurs in `n` as a contiguous
substring. -/
def strContainsSub (n nd : String) : Bool := listHasInfix nd.data n.data

/-- The value bound to `optimizer_parameters` and handed to `AdamW`:
either the bare parameter list `network.parameters()` (the library
then applies its default weight decay), or explicit groups, each a
parameter list with its `weight_decay`. -/
inductive OptimizerParams (P : Type) where
  | defaultGroup : List P → OptimizerParams P
  | groups : List (List P × ℚ) → OptimizerParams P
deriving DecidableEq, Repr

/-- Embedding of `optimizer_parameters` (train.py lines 86-105): with
`custom_weight_decay` the named parameters are split into the group of
those whose name contains no `no_decay` substring (`weight_decay =
0.001`) and the group of those whose name contains one
(`weight_decay = 0.0`), in that order; otherwise the bare parameter
list is used.  The network is represented by its `named_parameters`
list. -/
def optimizer_parameters {P : Type} (named : List (String × P))
    (custom_weight_decay : Bool) : OptimizerParams P :=
  if custom_weight_decay then
    OptimizerParams.groups
      [ ((named.filter fun np => !(no_decay.any fun nd => strContainsSub np.1 nd)).map Prod.snd,
          1 / 1000),
        ((named.filter fun np => no_decay.any fun nd => strContainsSub np.1 nd).map Prod.snd,
          0) ]
  else
    OptimizerParams.defaultGroup (named.map Prod.snd)

/-- The process-wide random-generator states and backend flags that
`enforce_reproducibility` (train.py lines 15-27) writes: the torch CPU
and CUDA generators, the cuDNN `deterministic` / `benchmark` flags,
and the host-language and numpy generators.  Each generator state is
abstracted to the seed it was last set from. -/
structure WorldState where
  torchCpuState : ℕ
  torchCudaState : ℕ
  cudnnDeterministic : Bool
  cudnnBenchmark : Bool
  pyRandomState : ℕ
  numpyState : ℕ
deriving DecidableEq, Repr

/-- Embedding of `enforce_reproducibility` (train.py lines 15-27): seeds every
generator from `seed` and forces cuDNN into deterministic,
non-benchmarking mode, regardless of the incoming process state. -/
def enforce_reproducibility (seed : ℕ) (_w : WorldState) : WorldState :=
  { torchCpuState := seed, torchCudaState := seed,
    cudnnDeterministic := true, cudnnBenchmark := false,
    pyRandomState := seed, numpyState := seed }

/-- What a `train_model` call looks like from outside: the loss trace
it returns, the process random state when it finishes, and whether the
seeder ran. -/
structure TrainRunResult where
  trace : List Flt
  finalWorld : WorldState
  seederInvoked : Bool
deriving DecidableEq, Repr

/-- The seeding prologue of `train_model` (train.py lines 63-64)
around the rest of the run: everything after the prologue (loader
construction, optimizer setup, the epoch loop) is deterministic given
the process random state and the call's data and hyperparameters, and
is abstracted by the oracle `trainRun`, which consumes randomness
(returning the advanced state) but never seeds.  With
`fixed_seed = some s` the prologue calls `enforce_reproducibility s`
first; with `fixed_seed = none` it does not run the seeder at all. -/
def train_model_seeding {D H : Type}
    (trainRun : WorldState → D → H → List Flt × WorldState)
    (w : WorldState) (fixed_seed : Option ℕ) (data : D) (hyper : H) :
    TrainRunResult :=
  match fixed_seed with
  | some s =>
      let w1 := enforce_reproducibility s w
      let r := trainRun w1 data hyper
      { trace := r.1, finalWorld := r.2, seederInvoked := true }
  | none =>
      let r := trainRun w data hyper
      { trace := r.1, finalWorld := r.2, seederInvoked := false }

/-! ## Basic lemmas about the float order and the epoch loop -/

lemma Flt.lt_irrefl (a : Flt) : Flt.lt a a = false := by
  cases a <;> simp [Flt.lt]

lemma Flt.lt_asymm {a b : Flt} (h : Flt.lt a b = true) : Flt.lt b a = false := by
  cases a <;> cases b <;> simp_all [Flt.lt]
  exact le_of_lt h

lemma Flt.lt_trans {a b c : Flt} (h1 : Flt.lt a b = true) (h2 : Flt.lt b c = true) :
    Flt.lt a c = true := by
  cases a <;> cases b <;> cases c <;> simp_all [Flt.lt]
  exact h1.trans h2

lemma Flt.lt_ne_nan {a b : Flt} (h : Flt.lt a b = true) : a ≠ Flt.nan ∧ b ≠ Flt.nan := by
  cases a <;> cases b <;> simp_all [Flt.lt]

lemma Flt.lt_resolve {a b : Flt} (ha : a ≠ Flt.nan) (hb : b ≠ Flt.nan)
    (h : Flt.lt a b = false) : a = b ∨ Flt.lt b a = true := by
  cases a <;> cases b <;> simp_all [Flt.lt]
  rcases lt_or_eq_of_le h with h' | h'
  · exact Or.inr h'
  · exact Or.inl h'.symm

lemma epochStep_losses {Θ : Type} (tu : ℕ → Θ → Θ) (tl vl : ℕ → Flt)
    (s : TrainState Θ) (e : ℕ) :
    (epochStep tu tl vl s e).losses = s.losses ++ [tl e] := by
  unfold epochStep; split <;> rfl

lemma epochStep_params {Θ : Type} (tu : ℕ → Θ → Θ) (tl vl : ℕ → Flt)
    (s : TrainState Θ) (e : ℕ) :
    (epochStep tu tl vl s e).params = tu e s.params := by
  unfold epochStep; split <;> rfl

lemma epochStep_epochsRun {Θ : Type} (tu : ℕ → Θ → Θ) (tl vl : ℕ → Flt)
    (s : TrainState Θ) (e : ℕ) :
    (epochStep tu tl vl s e).epochsRun = s.epochsRun ++ [e] := by
  unfold epochStep; split <;> rfl

lemma epochStep_bestLoss {Θ : Type} (tu : ℕ → Θ → Θ) (tl vl : ℕ → Flt)
    (s : TrainState Θ) (e : ℕ) :
    (epochStep tu tl vl s e).bestLoss =
      if Flt.lt (vl e) s.bestLoss then vl e else s.bestLoss := by
  unfold epochStep; split <;> simp_all

lemma epochStep_bestAssigned {Θ : Type} (tu : ℕ → Θ → Θ) (tl vl : ℕ → Flt)
    (s : TrainState Θ) (e : ℕ) :
    (epochStep tu tl vl s e).bestAssigned =
      (s.bestAssigned || Flt.lt (vl e) s.bestLoss) := by
  unfold epochStep; split <;> simp_all

lemma runLoop_zero {Θ : Type} (tu : ℕ → Θ → Θ) (tl vl : ℕ → Flt) (θ0 : Θ) :
    runLoop tu tl vl θ0 0 = initState θ0 := rfl

lemma runLoop_succ {Θ : Type} (tu : ℕ → Θ → Θ) (tl vl : ℕ → Flt) (θ0 : Θ) (k : ℕ) :
    runLoop tu tl vl θ0 (k + 1) =
      epochStep tu tl vl (runLoop tu tl vl θ0 k) k := by
  unfold runLoop
  rw [List.range_succ, List.foldl_append, List.foldl_cons, List.foldl_nil]

lemma runLoop_losses {Θ : Type} (tu : ℕ → Θ → Θ) (tl vl : ℕ → Flt) (θ0 : Θ) (k : ℕ) :
    (runLoop tu tl vl θ0 k).losses = (List.range k).map tl := by
  induction k with
  | zero => rfl
  | succ k ih =>
      rw [runLoop_succ, epochStep_losses, ih, List.range_succ, List.map_append,
        List.map_singleton]

lemma paramsAfter_succ {Θ : Type} (tu : ℕ → Θ → Θ) (θ0 : Θ) (k : ℕ) :
    paramsAfter tu θ0 (k + 1) = tu k (paramsAfter tu θ0 k) := by
  unfold paramsAfter
  rw [List.range_succ, List.foldl_append, List.foldl_cons, List.foldl_nil]

lemma runLoop_params {Θ : Type} (tu : ℕ → Θ → Θ) (tl vl : ℕ → Flt) (θ0 : Θ) (k : ℕ) :
    (runLoop tu tl vl θ0 k).params = paramsAfter tu θ0 k := by
  induction k with
  | zero => rfl
  | succ k ih => rw [runLoop_succ, epochStep_params, ih, paramsAfter_succ]

lemma runLoop_epochsRun {Θ : Type} (tu : ℕ → Θ → Θ) (tl vl : ℕ → Flt) (θ0 : Θ) (k : ℕ) :
    (runLoop tu tl vl θ0 k).epochsRun = List.range k := by
  induction k with
  | zero => rfl
  | succ k ih => rw [runLoop_succ, epochStep_epochsRun, ih, List.range_succ]

/-- The tracked `best_loss` is always one of `+∞` and the validation
losses seen so far, and no element of that collection is strictly below
it (w.r.t. the float comparison the code itself uses). -/
lemma runLoop_bestLoss_min {Θ : Type} (tu : ℕ → Θ → Θ) (tl vl : ℕ → Flt) (θ0 : Θ)
    (k : ℕ) :
    (runLoop tu tl vl θ0 k).bestLoss ∈ Flt.inf :: (List.range k).map vl
    ∧ ∀ x ∈ Flt.inf :: (List.range k).map vl,
        Flt.lt x ((runLoop tu tl vl θ0 k).bestLoss) = false := by
  induction k with
  | zero =>
      refine ⟨List.mem_cons_self _ _, ?_⟩
      intro x hx
      rcases List.mem_cons.mp hx with h | h
      · subst h; exact Flt.lt_irrefl _
      · simp at h
  | succ k ih =>
      rw [runLoop_succ, epochStep_bestLoss]
      by_cases hf : Flt.lt (vl k) ((runLoop tu tl vl θ0 k).bestLoss) = true
      · rw [if_pos hf]
        constructor
        · refine List.mem_cons.mpr (Or.inr ?_)
          rw [List.range_succ, List.map_append]
          exact List.mem_append.mpr (Or.inr (by simp))
        · intro x hx
          rcases List.mem_cons.mp hx with h | h
          · subst h
            by_contra hc
            rw [Bool.not_eq_false] at hc
            have := Flt.lt_trans hc hf
            have h2 := ih.2 Flt.inf (List.mem_cons_self _ _)
            rw [h2] at this; exact Bool.false_ne_true this
          · rw [List.range_succ, List.map_append] at h
            rcases List.mem_append.mp h with h | h
            · by_contra hc
              rw [Bool.not_eq_false] at hc
              have := Flt.lt_trans hc hf
              have h2 := ih.2 x (List.mem_cons.mpr (Or.inr h))
              rw [h2] at this; exact Bool.false_ne_true this
            · simp at h; subst h; exact Flt.lt_irrefl _
      · rw [if_neg hf]
        rw [Bool.not_eq_true] at hf
        constructor
        · rcases List.mem_cons.mp ih.1 with h | h
          · exact List.mem_cons.mpr (Or.inl h)
          · refine List.mem_cons.mpr (Or.inr ?_)
            rw [List.range_succ, List.map_append]
            exact List.mem_append.mpr (Or.inl h)
        · intro x hx
          rcases List.mem_cons.mp hx with h | h
          · exact ih.2 x (by simp [h])
          · rw [List.range_succ, List.map_append] at h
            rcases List.mem_append.mp h with h | h
            · exact ih.2 x (List.mem_cons.mpr (Or.inr h))
            · simp at h; subst h; exact hf

/-- If the improvement test fires at epoch `k` and no earlier validation
loss was NaN, the epoch-`k` validation loss is strictly below every
earlier one. -/
lemma improvement_beats_all {Θ : Type} (tu : ℕ → Θ → Θ) (tl vl : ℕ → Flt) (θ0 : Θ)
    (k : ℕ) (hnn : ∀ e, e < k → vl e ≠ Flt.nan)
    (hf : Flt.lt (vl k) ((runLoop tu tl vl θ0 k).bestLoss) = true) :
    ∀ j, j < k → Flt.lt (vl k) (vl j) = true := by
  intro j hj
  have hmem : vl j ∈ Flt.inf :: (List.range k).map vl :=
    List.mem_cons.mpr (Or.inr (List.mem_map.mpr ⟨j, List.mem_range.mpr hj, rfl⟩))
  have hmin := (runLoop_bestLoss_min tu tl vl θ0 k).2 (vl j) hmem
  by_contra hc
  rw [Bool.not_eq_true] at hc
  rcases Flt.lt_resolve (Flt.lt_ne_nan hf).1 (hnn j hj) hc with he | hl
  · rw [← he] at hmin; rw [hmin] at hf; exact Bool.false_ne_true hf
  · have := Flt.lt_trans hl hf
    rw [hmin] at this; exact Bool.false_ne_true this

/-- If the improvement condition `valid_loss < best_loss` never fired,
`best_loss` is still `+∞` and `best_parameters` is still unbound. -/
lemma runLoop_no_improvement {Θ : Type} (tu : ℕ → Θ → Θ) (tl vl : ℕ → Flt) (θ0 : Θ)
    (k : ℕ) (h : ∀ e, e < k → Flt.lt (vl e) Flt.inf = false) :
    (runLoop tu tl vl θ0 k).bestLoss = Flt.inf
    ∧ (runLoop tu tl vl θ0 k).bestAssigned = false := by
  induction k with
  | zero => exact ⟨rfl, rfl⟩
  | succ k ih =>
      have ih' := ih (fun e he => h e (Nat.lt_succ_of_lt he))
      rw [runLoop_succ, epochStep_bestLoss, epochStep_bestAssigned, ih'.1, ih'.2,
        h k (Nat.lt_succ_self k)]
      exact ⟨rfl, rfl⟩

/-- If `train_model` returns at all, it returns the live parameter cell
after the last epoch together with the accumulated loss list. -/
lemma trainModelCore_ok {Θ : Type} {tu : ℕ → Θ → Θ} {tl vl : ℕ → Flt} {θ0 : Θ}
    {epochs : ℕ} {θ : Θ} {ls : List Flt}
    (h : trainModelCore tu tl vl θ0 epochs = Except.ok (θ, ls)) :
    θ = paramsAfter tu θ0 epochs ∧ ls = (List.range epochs).map tl := by
  have hdef : trainModelCore tu tl vl θ0 epochs =
      (if (runLoop tu tl vl θ0 epochs).bestAssigned = true
        then Except.ok ((runLoop tu tl vl θ0 epochs).params,
          (runLoop tu tl vl θ0 epochs).losses)
        else Except.error TrainError.unboundBestParameters) := rfl
  rw [hdef] at h
  by_cases hb : (runLoop tu tl vl θ0 epochs).bestAssigned = true
  · rw [if_pos hb] at h
    have h' := Except.ok.inj h
    have h1 : (runLoop tu tl vl θ0 epochs).params = θ := congrArg Prod.fst h'
    have h2 : (runLoop tu tl vl θ0 epochs).losses = ls := congrArg Prod.snd h'
    rw [← h1, ← h2, runLoop_params, runLoop_losses]
    exact ⟨rfl, rfl⟩
  · rw [if_neg hb] at h
    exact absurd h (by simp)

/-! ## Claim theorems -/

/-- C7: the epoch loop of `train_model` runs exactly `epochs`
iterations and then terminates: the executed epoch indices are
precisely `0, …, epochs-1` in that order — no early stopping, no
convergence check, no epoch repeated or skipped — and one training
loss is appended per iteration. -/
theorem epoch_loop_exact_iterations {Θ : Type} (tu : ℕ → Θ → Θ) (tl vl : ℕ → Flt)
    (θ0 : Θ) (epochs : ℕ) :
    (runLoop tu tl vl θ0 epochs).epochsRun = List.range epochs
    ∧ (runLoop tu tl vl θ0 epochs).losses.length = epochs :=
  ⟨runLoop_epochsRun tu tl vl θ0 epochs, by rw [runLoop_losses]; simp⟩

/-- C5: whenever `train_model` returns, the returned loss trace has
exactly `epochs` entries and is the per-epoch training losses in epoch
order (validation losses are never appended to it). -/
theorem loss_trace_exact {Θ : Type} (tu : ℕ → Θ → Θ) (tl vl : ℕ → Flt)
    (θ0 : Θ) (epochs : ℕ) (θ : Θ) (ls : List Flt)
    (h : trainModelCore tu tl vl θ0 epochs = Except.ok (θ, ls)) :
    ls.length = epochs ∧ ls = (List.range epochs).map tl := by
  have h' := trainModelCore_ok h
  exact ⟨by rw [h'.2]; simp, h'.2⟩

theorem loss_trace_exact_witness :
    trainModelCore (fun _ θ => θ + 1) (fun _ => Flt.fin 3) (fun _ => Flt.fin 0) (0 : ℕ) 1
      = Except.ok (1, [Flt.fin 3])
    ∧ ([Flt.fin 3].length = 1
        ∧ [Flt.fin 3] = (List.range 1).map (fun _ => Flt.fin 3)) :=
  ⟨by rfl, loss_trace_exact (fun _ θ => θ + 1) (fun _ => Flt.fin 3) (fun _ => Flt.fin 0)
    (0 : ℕ) 1 1 [Flt.fin 3] (by rfl)⟩

/-- C1: with validation losses `1.0` then `2.0` and the parameter cell
advancing `0 → 1 → 2`, the minimum-validation-loss epoch is epoch 0 and
a deep copy captured there would hold `1` (as `specBestParams`
computes), but the code returns the final parameters `2`: the
`state_dict()` capture aliases the live network state instead of
copying it, so the final `load_state_dict(best_parameters)` restores
nothing. -/
theorem best_snapshot_alias_divergence :
    trainModelCore (fun _ θ => θ + 1) (fun _ => Flt.fin 0)
        (fun e => if e = 0 then Flt.fin 1 else Flt.fin 2) (0 : ℕ) 2
      = Except.ok (2, [Flt.fin 0, Flt.fin 0])
    ∧ specBestParams (fun _ θ => θ + 1)
        (fun e => if e = 0 then Flt.fin 1 else Flt.fin 2) (0 : ℕ) 2 = some 1
    ∧ (2 : ℕ) ≠ 1 :=
  ⟨rfl, rfl, by decide⟩

/-- C2 counterexample: with two epochs whose validation losses are both
NaN, `valid_loss < best_loss` never fires, and `train_model` does not
return the unchanged network — it raises the unbound-local error at
`network.load_state_dict(best_parameters)`. -/
theorem no_improvement_return_counterexample :
    trainModelCore (fun _ θ => θ + 1) (fun _ => Flt.fin 1) (fun _ => Flt.nan) (5 : ℕ) 2
      = Except.error TrainError.unboundBestParameters
    ∧ trainModelCore (fun _ θ => θ + 1) (fun _ => Flt.fin 1) (fun _ => Flt.nan) (5 : ℕ) 2
      ≠ Except.ok (5, [Flt.fin 1, Flt.fin 1]) := by
  refine ⟨rfl, ?_⟩
  intro hc
  rw [show trainModelCore (fun _ θ => θ + 1) (fun _ => Flt.fin 1) (fun _ => Flt.nan) (5 : ℕ) 2
      = Except.error TrainError.unboundBestParameters from rfl] at hc
  exact Except.noConfusion hc

/-- C2 amended: if the improvement test `valid_loss < best_loss` can
never fire (`epochs = 0`, or every validation loss compares
not-less-than `+∞`, e.g. all NaN or `+∞`), `train_model` does not
return: `best_parameters` is never assigned and the restoration line
raises an unbound-local error. -/
theorem no_improvement_unbound_error {Θ : Type} (tu : ℕ → Θ → Θ) (tl vl : ℕ → Flt)
    (θ0 : Θ) (epochs : ℕ)
    (h : ∀ e, e < epochs → Flt.lt (vl e) Flt.inf = false) :
    trainModelCore tu tl vl θ0 epochs = Except.error TrainError.unboundBestParameters := by
  have h2 := (runLoop_no_improvement tu tl vl θ0 epochs h).2
  simp [trainModelCore, h2]

theorem no_improvement_unbound_error_witness :
    (∀ e, e < 0 → Flt.lt ((fun _ => Flt.inf) e) Flt.inf = false)
    ∧ trainModelCore (fun _ θ => θ + 2) (fun _ => Flt.fin 1) (fun _ => Flt.inf) (7 : ℕ) 0
      = Except.error TrainError.unboundBestParameters :=
  ⟨by decide, no_improvement_unbound_error (fun _ θ => θ + 2) (fun _ => Flt.fin 1)
    (fun _ => Flt.inf) (7 : ℕ) 0 (by decide)⟩

/-- C3 counterexample: with 3 training examples, batch size 2 and
3 epochs, the code computes `int(3 / 2 * 3) = int(4.5) = 4` total steps,
while the claimed formula `floor(3/2) * 3` gives `1 * 3 = 3`. -/
theorem num_train_steps_counterexample :
    num_train_steps 3 2 3 = 4 ∧ spec_num_train_steps 3 2 3 = 3
    ∧ num_train_steps 3 2 3 ≠ spec_num_train_steps 3 2 3 := by
  have h4 : num_train_steps 3 2 3 = 4 := by norm_num [num_train_steps]; rfl
  refine ⟨h4, by decide, ?_⟩
  rw [h4]
  decide

/-- C3 amended: the total training-step count is
`int((n / train_batch_size) * epochs)`, i.e. `⌊n·epochs / bs⌋`; this
agrees with the claimed `⌊n / bs⌋·epochs` whenever `bs` divides `n`
(in particular for the 10-examples/batch-5/2-epochs example, giving 4),
but not in general. -/
theorem num_train_steps_eq_floor_total (n bs e : ℕ) (hbs : 0 < bs) :
    num_train_steps n bs e = n * e / bs
    ∧ (bs ∣ n → num_train_steps n bs e = spec_num_train_steps n bs e) := by
  have key : num_train_steps n bs e = n * e / bs := by
    unfold num_train_steps
    have h1 : (n : ℚ) / (bs : ℚ) * (e : ℚ) = ((((n * e : ℕ) : ℤ) : ℚ) / ((bs : ℕ) : ℚ)) := by
      push_cast; ring
    rw [h1, Rat.floor_intCast_div_natCast, ← Int.natCast_div, Int.toNat_natCast]
  refine ⟨key, fun hd => ?_⟩
  obtain ⟨c, rfl⟩ := hd
  rw [key]
  unfold spec_num_train_steps
  rw [Nat.mul_div_cancel_left c hbs, mul_assoc, Nat.mul_div_cancel_left (c * e) hbs]

theorem num_train_steps_eq_floor_total_witness :
    0 < 5 ∧ (num_train_steps 10 5 2 = 10 * 2 / 5
      ∧ (5 ∣ 10 → num_train_steps 10 5 2 = spec_num_train_steps 10 5 2)) :=
  ⟨by decide, num_train_steps_eq_floor_total 10 5 2 (by decide)⟩

/-- C4: provided no validation loss seen so far is NaN, the tracked
`best_loss` starts at `+∞`, is always one of `+∞` and the validation
losses observed so far with none of them strictly below it (it is their
minimum under the code's own comparison), it changes at most once per
epoch — exactly when `valid_loss < best_loss` fires, at which point the
snapshot is (re)bound — and it fires only when the current validation
loss is strictly below every validation loss seen before. -/
theorem best_loss_min_invariant {Θ : Type} (tu : ℕ → Θ → Θ) (tl vl : ℕ → Flt)
    (θ0 : Θ) (k : ℕ) (hnn : ∀ e, e < k → vl e ≠ Flt.nan) :
    (runLoop tu tl vl θ0 0).bestLoss = Flt.inf
    ∧ ((runLoop tu tl vl θ0 k).bestLoss ∈ Flt.inf :: (List.range k).map vl
        ∧ ∀ x ∈ Flt.inf :: (List.range k).map vl,
            Flt.lt x ((runLoop tu tl vl θ0 k).bestLoss) = false)
    ∧ (Flt.lt (vl k) ((runLoop tu tl vl θ0 k).bestLoss) = true →
        ∀ j, j < k → Flt.lt (vl k) (vl j) = true)
    ∧ (runLoop tu tl vl θ0 (k + 1)).bestLoss =
        (if Flt.lt (vl k) ((runLoop tu tl vl θ0 k).bestLoss) then vl k
          else (runLoop tu tl vl θ0 k).bestLoss)
    ∧ (runLoop tu tl vl θ0 (k + 1)).bestAssigned =
        ((runLoop tu tl vl θ0 k).bestAssigned
          || Flt.lt (vl k) ((runLoop tu tl vl θ0 k).bestLoss)) := by
  refine ⟨rfl, runLoop_bestLoss_min tu tl vl θ0 k,
    improvement_beats_all tu tl vl θ0 k hnn, ?_, ?_⟩
  · rw [runLoop_succ, epochStep_bestLoss]
  · rw [runLoop_succ, epochStep_bestAssigned]

theorem best_loss_min_invariant_witness :
    (∀ e, e < 1 → (fun _ : ℕ => Flt.fin 1) e ≠ Flt.nan)
    ∧ ((runLoop (fun _ θ => θ) (fun _ => Flt.fin 0) (fun _ : ℕ => Flt.fin 1) (0 : ℕ) 0).bestLoss = Flt.inf
      ∧ ((runLoop (fun _ θ => θ) (fun _ => Flt.fin 0) (fun _ : ℕ => Flt.fin 1) (0 : ℕ) 1).bestLoss
            ∈ Flt.inf :: [Flt.fin 1]
        ∧ ∀ x ∈ Flt.inf :: [Flt.fin 1],
            Flt.lt x ((runLoop (fun _ θ => θ) (fun _ => Flt.fin 0) (fun _ : ℕ => Flt.fin 1) (0 : ℕ) 1).bestLoss) = false)
      ∧ (Flt.lt (Flt.fin 1) ((runLoop (fun _ θ => θ) (fun _ => Flt.fin 0) (fun _ : ℕ => Flt.fin 1) (0 : ℕ) 1).bestLoss) = true →
          ∀ j, j < 1 → Flt.lt (Flt.fin 1) (Flt.fin 1) = true)
      ∧ (runLoop (fun _ θ => θ) (fun _ => Flt.fin 0) (fun _ : ℕ => Flt.fin 1) (0 : ℕ) 2).bestLoss =
          (if Flt.lt (Flt.fin 1) ((runLoop (fun _ θ => θ) (fun _ => Flt.fin 0) (fun _ : ℕ => Flt.fin 1) (0 : ℕ) 1).bestLoss) then Flt.fin 1
            else (runLoop (fun _ θ => θ) (fun _ => Flt.fin 0) (fun _ : ℕ => Flt.fin 1) (0 : ℕ) 1).bestLoss)
      ∧ (runLoop (fun _ θ => θ) (fun _ => Flt.fin 0) (fun _ : ℕ => Flt.fin 1) (0 : ℕ) 2).bestAssigned =
          ((runLoop (fun _ θ => θ) (fun _ => Flt.fin 0) (fun _ : ℕ => Flt.fin 1) (0 : ℕ) 1).bestAssigned
            || Flt.lt (Flt.fin 1) ((runLoop (fun _ θ => θ) (fun _ => Flt.fin 0) (fun _ : ℕ => Flt.fin 1) (0 : ℕ) 1).bestLoss))) :=
  ⟨by intro e _; simp, best_loss_min_invariant (fun _ θ => θ) (fun _ => Flt.fin 0)
    (fun _ : ℕ => Flt.fin 1) (0 : ℕ) 1 (by intro e _; simp)⟩

/-- C6: with `custom_weight_decay` enabled, the optimizer receives
exactly two groups — weight decay `0.001` then `0.0` — such that every
named parameter whose name contains one of the `no_decay` substrings
(`"bias"`, `"LayerNorm.bias"`, `"LayerNorm.weight"`) lands in the
zero-decay group, every other named parameter lands in the
`0.001` group, and each group contains only parameters of the
corresponding kind; with it disabled, the optimizer receives the bare
parameter list (library-default decay). -/
theorem weight_decay_grouping {P : Type} (named : List (String × P)) :
    optimizer_parameters named false = OptimizerParams.defaultGroup (named.map Prod.snd)
    ∧ ∃ g1 g0 : List P,
        optimizer_parameters named true = OptimizerParams.groups [(g1, 1 / 1000), (g0, 0)]
        ∧ (∀ n p, (n, p) ∈ named →
            (no_decay.any fun nd => strContainsSub n nd) = true → p ∈ g0)
        ∧ (∀ n p, (n, p) ∈ named →
            (no_decay.any fun nd => strContainsSub n nd) = false → p ∈ g1)
        ∧ (∀ q ∈ g0, ∃ m, (m, q) ∈ named
            ∧ (no_decay.any fun nd => strContainsSub m nd) = true)
        ∧ (∀ q ∈ g1, ∃ m, (m, q) ∈ named
            ∧ (no_decay.any fun nd => strContainsSub m nd) = false) := by
  constructor
  · rfl
  · refine ⟨_, _, rfl, ?_, ?_, ?_, ?_⟩
    · intro n p hmem hhit
      exact List.mem_map.mpr ⟨(n, p), List.mem_filter.mpr ⟨hmem, hhit⟩, rfl⟩
    · intro n p hmem hmiss
      refine List.mem_map.mpr ⟨(n, p), List.mem_filter.mpr ⟨hmem, ?_⟩, rfl⟩
      simp [hmiss]
    · intro q hq
      obtain ⟨mp, hmf, hq'⟩ := List.mem_map.mp hq
      have hf := List.mem_filter.mp hmf
      subst hq'
      exact ⟨mp.1, by rw [Prod.mk.eta]; exact hf.1, hf.2⟩
    · intro q hq
      obtain ⟨mp, hmf, hq'⟩ := List.mem_map.mp hq
      have hf := List.mem_filter.mp hmf
      subst hq'
      refine ⟨mp.1, by rw [Prod.mk.eta]; exact hf.1, ?_⟩
      have hb := hf.2
      rwa [Bool.not_eq_true'] at hb

/-- C8: two `train_model` runs that fix the same seed, consume the same
data and hyperparameters, and share the downstream computation produce
the same loss trace regardless of the process random state each run
started from — the seeder derives the downstream state from the seed
alone — and re-seeding with the same value resets to the same state. -/
theorem fixed_seed_reproducibility {D H : Type}
    (trainRun : WorldState → D → H → List Flt × WorldState)
    (w1 w2 : WorldState) (s : ℕ) (data : D) (hyper : H) :
    (train_model_seeding trainRun w1 (some s) data hyper).trace
      = (train_model_seeding trainRun w2 (some s) data hyper).trace
    ∧ enforce_reproducibility s (enforce_reproducibility s w1)
      = enforce_reproducibility s w1 :=
  ⟨rfl, rfl⟩

/-- C9 counterexample: after an epoch with finite validation loss `5`
the best loss is finite, and the non-finite `-∞` validation loss of the
next epoch is not ignored — it is recorded as the new best, so the
claim that a non-finite validation loss always compares not-less-than a
finite best is false. -/
theorem nonfinite_loss_ignored_counterexample :
    Flt.nonFinite Flt.neginf = true
    ∧ (runLoop (fun _ θ => θ + 1) (fun _ => Flt.fin 0)
        (fun e => if e = 0 then Flt.fin 5 else Flt.neginf) (0 : ℕ) 1).bestLoss = Flt.fin 5
    ∧ (runLoop (fun _ θ => θ + 1) (fun _ => Flt.fin 0)
        (fun e => if e = 0 then Flt.fin 5 else Flt.neginf) (0 : ℕ) 2).bestLoss = Flt.neginf :=
  ⟨rfl, by rfl, by rfl⟩

/-- C9 amended: non-finite validation losses receive no special
handling, only the `<` comparison; with a finite best loss, NaN and
`+∞` compare not-less-than and are silently ignored while `-∞` compares
less-than and becomes the recorded best; on the first epoch (best still
`+∞`) NaN and `+∞` do not become the recorded best, while `-∞` does. -/
theorem nonfinite_loss_handling {Θ : Type} (tu : ℕ → Θ → Θ) (tl vl : ℕ → Flt)
    (θ0 : Θ) (s : TrainState Θ) (k : ℕ) (b : ℚ) (hb : s.bestLoss = Flt.fin b) :
    (vl k = Flt.nan ∨ vl k = Flt.inf →
        (epochStep tu tl vl s k).bestLoss = s.bestLoss
        ∧ (epochStep tu tl vl s k).bestAssigned = s.bestAssigned)
    ∧ (vl k = Flt.neginf →
        (epochStep tu tl vl s k).bestLoss = Flt.neginf
        ∧ (epochStep tu tl vl s k).bestAssigned = true)
    ∧ (vl 0 = Flt.nan ∨ vl 0 = Flt.inf →
        (runLoop tu tl vl θ0 1).bestLoss = Flt.inf
        ∧ (runLoop tu tl vl θ0 1).bestAssigned = false)
    ∧ (vl 0 = Flt.neginf →
        (runLoop tu tl vl θ0 1).bestLoss = Flt.neginf
        ∧ (runLoop tu tl vl θ0 1).bestAssigned = true) := by
  refine ⟨?_, ?_, ?_, ?_⟩
  · rintro (h | h) <;>
      · rw [epochStep_bestLoss, epochStep_bestAssigned, h, hb]
        exact ⟨rfl, by simp [Flt.lt]⟩
  · intro h
    rw [epochStep_bestLoss, epochStep_bestAssigned, h, hb]
    exact ⟨by rfl, by simp [Flt.lt]⟩
  · rintro (h | h) <;>
      · rw [runLoop_succ, runLoop_zero, epochStep_bestLoss, epochStep_bestAssigned, h]
        exact ⟨rfl, rfl⟩
  · intro h
    rw [runLoop_succ, runLoop_zero, epochStep_bestLoss, epochStep_bestAssigned, h]
    exact ⟨by rfl, by rfl⟩

theorem nonfinite_loss_handling_witness :
    ((runLoop (fun _ θ => θ + 1) (fun _ => Flt.fin 0)
        (fun e => if e = 0 then Flt.fin 5 else Flt.neginf) (0 : ℕ) 1).bestLoss = Flt.fin 5)
    ∧ ((Flt.neginf = Flt.nan ∨ Flt.neginf = Flt.inf →
          (epochStep (fun _ θ => θ + 1) (fun _ => Flt.fin 0)
              (fun e => if e = 0 then Flt.fin 5 else Flt.neginf)
              (runLoop (fun _ θ => θ + 1) (fun _ => Flt.fin 0)
                (fun e => if e = 0 then Flt.fin 5 else Flt.neginf) (0 : ℕ) 1) 1).bestLoss
            = (runLoop (fun _ θ => θ + 1) (fun _ => Flt.fin 0)
                (fun e => if e = 0 then Flt.fin 5 else Flt.neginf) (0 : ℕ) 1).bestLoss
          ∧ (epochStep (fun _ θ => θ + 1) (fun _ => Flt.fin 0)
              (fun e => if e = 0 then Flt.fin 5 else Flt.neginf)
              (runLoop (fun _ θ => θ + 1) (fun _ => Flt.fin 0)
                (fun e => if e = 0 then Flt.fin 5 else Flt.neginf) (0 : ℕ) 1) 1).bestAssigned
            = (runLoop (fun _ θ => θ + 1) (fun _ => Flt.fin 0)
                (fun e => if e = 0 then Flt.fin 5 else Flt.neginf) (0 : ℕ) 1).bestAssigned)
      ∧ (Flt.neginf = Flt.neginf →
          (epochStep (fun _ θ => θ + 1) (fun _ => Flt.fin 0)
              (fun e => if e = 0 then Flt.fin 5 else Flt.neginf)
              (runLoop (fun _ θ => θ + 1) (fun _ => Flt.fin 0)
                (fun e => if e = 0 then Flt.fin 5 else Flt.neginf) (0 : ℕ) 1) 1).bestLoss
            = Flt.neginf
          ∧ (epochStep (fun _ θ => θ + 1) (fun _ => Flt.fin 0)
              (fun e => if e = 0 then Flt.fin 5 else Flt.neginf)
              (runLoop (fun _ θ => θ + 1) (fun _ => Flt.fin 0)
                (fun e => if e = 0 then Flt.fin 5 else Flt.neginf) (0 : ℕ) 1) 1).bestAssigned
            = true)
      ∧ (Flt.fin 5 = Flt.nan ∨ Flt.fin 5 = Flt.inf →
          (runLoop (fun _ θ => θ + 1) (fun _ => Flt.fin 0)
              (fun e => if e = 0 then Flt.fin 5 else Flt.neginf) (0 : ℕ) 1).bestLoss = Flt.inf
          ∧ (runLoop (fun _ θ => θ + 1) (fun _ => Flt.fin 0)
              (fun e => if e = 0 then Flt.fin 5 else Flt.neginf) (0 : ℕ) 1).bestAssigned = false)
      ∧ (Flt.fin 5 = Flt.neginf →
          (runLoop (fun _ θ => θ + 1) (fun _ => Flt.fin 0)
              (fun e => if e = 0 then Flt.fin 5 else Flt.neginf) (0 : ℕ) 1).bestLoss = Flt.neginf
          ∧ (runLoop (fun _ θ => θ + 1) (fun _ => Flt.fin 0)
              (fun e => if e = 0 then Flt.fin 5 else Flt.neginf) (0 : ℕ) 1).bestAssigned = true)) :=
  ⟨by rfl, nonfinite_loss_handling (fun _ θ => θ + 1) (fun _ => Flt.fin 0)
    (fun e => if e = 0 then Flt.fin 5 else Flt.neginf) (0 : ℕ)
    (runLoop (fun _ θ => θ + 1) (fun _ => Flt.fin 0)
      (fun e => if e = 0 then Flt.fin 5 else Flt.neginf) (0 : ℕ) 1) 1 5 (by rfl)⟩

/-- C10: with `fixed_seed = None` the seeder is never invoked — the
downstream computation receives the caller's process random state
untouched and the run's outcome is exactly that computation's — and the
seeder is invoked precisely when `fixed_seed` is not `None`. -/
theorem seeder_skipped_without_fixed_seed {D H : Type}
    (trainRun : WorldState → D → H → List Flt × WorldState)
    (w : WorldState) (data : D) (hyper : H) :
    (train_model_seeding trainRun w none data hyper).seederInvoked = false
    ∧ (train_model_seeding trainRun w none data hyper).trace = (trainRun w data hyper).1
    ∧ (train_model_seeding trainRun w none data hyper).finalWorld = (trainRun w data hyper).2
    ∧ ∀ fs : Option ℕ,
        ((train_model_seeding trainRun w fs data hyper).seederInvoked = true ↔ fs ≠ none) := by
  refine ⟨rfl, rfl, rfl, ?_⟩
  intro fs
  cases fs <;> simp [train_model_seeding]

theorem weight_decay_grouping_witness :
    optimizer_parameters [("layer.bias", (0 : ℕ)), ("layer.weight", 1)] false
      = OptimizerParams.defaultGroup [0, 1] :=
  (weight_decay_grouping [("layer.bias", (0 : ℕ)), ("layer.weight", 1)]).1
